import Mathlib

/-!
Shallow embedding of the CHIP-8 emulator core (`chip8_core/src/lib.rs`).

Machine integers are modelled as `Nat` with explicit `% 2^w` at the
operations where the Rust code wraps (`wrapping_add`, `overflowing_sub`,
`u8` shifts).  Fallible operations — every place the Rust code can panic
(out-of-bounds array indexing, checked integer underflow, the
`unimplemented!` arm of `execute`) — return `Option`: `none` models the
panic, which aborts execution before any further state mutation.
Arrays (`ram`, `screen`, `v_reg`, `stack`, `keys`) are modelled as total
functions from `Nat` guarded by the same bounds checks Rust's indexing
performs.
-/

/-- `MEM_SIZE` from the source: 4096 bytes of RAM. -/
def MEM_SIZE : Nat := 4096

/-- `STACK_SIZE` from the source: 16 stack slots. -/
def STACK_SIZE : Nat := 16

/-- `KEYPAD_SIZE` from the source: 16 keys. -/
def KEYPAD_SIZE : Nat := 16

/-- `START_ADDR` from the source: programs load at 0x200. -/
def START_ADDR : Nat := 0x200

/-- `SCREEN_WIDTH` from the source. -/
def SCREEN_WIDTH : Nat := 64

/-- `SCREEN_HEIGHT` from the source. -/
def SCREEN_HEIGHT : Nat := 32

/-- The `Chip8` struct from the source.  Each fixed-size Rust array becomes a
total function; reads and writes go through bounds-checked helpers mirroring
Rust's panicking index operator. -/
structure Chip8 where
  pc : Nat
  ram : Nat → Nat
  screen : Nat → Bool
  v_reg : Nat → Nat
  i_reg : Nat
  sp : Nat
  stack : Nat → Nat
  dt : Nat
  st : Nat
  keys : Nat → Bool

namespace Chip8

/-- Bounds-checked RAM read: models `self.ram[addr]`, which panics (`none`)
when `addr ≥ 4096`. -/
def readRam (s : Chip8) (addr : Nat) : Option Nat :=
  if addr < MEM_SIZE then some (s.ram addr) else none

/-- Bounds-checked RAM write: models `self.ram[addr] = val`. -/
def writeRam (s : Chip8) (addr val : Nat) : Option Chip8 :=
  if addr < MEM_SIZE then
    some { s with ram := fun a => if a = addr then val else s.ram a }
  else none

/-- Bounds-checked keypad read: models `self.keys[i]`. -/
def readKey (s : Chip8) (i : Nat) : Option Bool :=
  if i < KEYPAD_SIZE then some (s.keys i) else none

/-- `Chip8::push`: `self.stack[self.sp] = val; self.sp += 1`.  The indexing
panics (`none`) when `sp ≥ 16` (stack overflow). -/
def push (s : Chip8) (val : Nat) : Option Chip8 :=
  if s.sp < STACK_SIZE then
    some { s with stack := fun i => if i = s.sp then val else s.stack i,
                  sp := s.sp + 1 }
  else none

/-- `Chip8::pop`: `self.sp -= 1; self.stack[self.sp]`.  The decrement
underflows (panics, `none`) when `sp = 0`, as the source comment notes. -/
def pop (s : Chip8) : Option (Nat × Chip8) :=
  if s.sp = 0 then none
  else some (s.stack (s.sp - 1), { s with sp := s.sp - 1 })

/-- `Chip8::tick_timers`.  If `dt > 0` decrement it; if `st > 0` decrement
it.  The source's `if self.st == 1 { }` block is empty — its only content is
the comment `// BEEP` — so no beep signal is produced and the function's
only effect is the two decrements. -/
def tick_timers (s : Chip8) : Chip8 :=
  let s1 := if s.dt > 0 then { s with dt := s.dt - 1 } else s
  if s1.st > 0 then { s1 with st := s1.st - 1 } else s1

/-- `Chip8::load`: `self.ram[start..end].copy_from_slice(data)` with
`start = 0x200`, `end = 0x200 + data.len()`.  Slicing `ram[start..end]`
panics (`none`) — before anything is written — exactly when
`end > 4096`; otherwise the bytes are copied verbatim. -/
def load (s : Chip8) (data : List Nat) : Option Chip8 :=
  let start := START_ADDR
  let stop := data.length + START_ADDR
  if stop ≤ MEM_SIZE then
    some { s with ram := fun a =>
      if start ≤ a ∧ a < stop then data.getD (a - start) 0 else s.ram a }
  else none

/-- `Chip8::fetch`: read the two bytes at `pc` and `pc + 1`, combine them
big-endian, advance `pc` by 2.  The reads are bounds-checked; when they
succeed `pc ≤ 4094`, so the `pc += 2` cannot overflow `u16`. -/
def fetch (s : Chip8) : Option (Nat × Chip8) := do
  let higher_byte ← s.readRam s.pc
  let lower_byte ← s.readRam (s.pc + 1)
  let op := (higher_byte <<< 8) ||| lower_byte
  some (op, { s with pc := s.pc + 2 })

/-- One column step of the Dxyn inner loop (`for x_line in 0..8`): if the
sprite bit is set, accumulate the pre-toggle pixel into `flipped` and XOR
the pixel with `true`. -/
def drawPix (xc yc yl px : Nat) (p : Chip8 × Bool) (xl : Nat) : Chip8 × Bool :=
  if px &&& (0x80 >>> xl) ≠ 0 then
    let x := (xc + xl) % SCREEN_WIDTH
    let y := (yc + yl) % SCREEN_HEIGHT
    let idx := x + SCREEN_WIDTH * y
    ({ p.1 with screen := fun j => if j = idx then xor (p.1.screen idx) true else p.1.screen j },
     p.2 || p.1.screen idx)
  else p

/-- One row of the Dxyn outer loop: read the row byte at `i_reg + y_line`
(bounds-checked, as `self.ram[addr]` is) and run the eight column steps. -/
def drawRow (xc yc : Nat) (p : Chip8 × Bool) (yl : Nat) : Option (Chip8 × Bool) := do
  let px ← p.1.readRam (p.1.i_reg + yl)
  some ((List.range 8).foldl (drawPix xc yc yl px) p)

/-- The Dxyn double loop: rows `0..num_rows`, starting with `flipped = false`. -/
def drawSprite (s : Chip8) (xc yc num_rows : Nat) : Option (Chip8 × Bool) :=
  (List.range num_rows).foldlM (drawRow xc yc) (s, false)

/-- Fx0A's key scan: the source loops `i` over `0..16` and takes the first
pressed key (`break`), i.e. the lowest-indexed pressed key. -/
def firstKey (s : Chip8) : Option Nat :=
  (List.range KEYPAD_SIZE).find? (fun i => s.keys i)

/-- Round-to-nearest, ties-to-even, of the rational `num / den` to an
integer.  Used to model IEEE-754 rounding of the `f32` divisions in Fx33. -/
def rne (num den : Nat) : Nat :=
  let q := num / den
  let r := num % den
  if 2 * r < den then q
  else if den < 2 * r then q + 1
  else if q % 2 = 0 then q else q + 1

/-- Model of the `f32` division `a as f32 / b as f32` for exactly
representable operands in the normal range (as in Fx33, where
`a ≤ 255`, `b ∈ {10, 100}`): the IEEE result is the real quotient rounded
to 24 significant bits, nearest-even.  Returns `(m, k)` with the value
`m / 2^k`: the exponent `e = n - 20` is fixed by
`2^e ≤ a/b < 2^(e+1)` and the significand is rounded at bit `k = 23 - e`.
For `a = 0` the quotient is exactly 0, returned as `(0, 0)`. -/
def f32Div (a b : Nat) : Nat × Nat :=
  match (List.range 64).find?
      (fun n => decide (b * 2 ^ n ≤ a * 2 ^ 20) && decide (a * 2 ^ 20 < b * 2 ^ (n + 1))) with
  | some n => (rne (a * 2 ^ (43 - n)) b, 43 - n)
  | none => (0, 0)

/-- Fx33's hundreds digit: `((vx as f32) / 100.0).floor() as u8`.
The cast to `f32` is exact, the division rounds (modelled by `f32Div`),
`floor` and the in-range cast are exact. -/
def bcdHundreds (vx : Nat) : Nat :=
  let mk := f32Div vx 100
  mk.1 / 2 ^ mk.2

/-- Fx33's tens digit: `(((vx as f32) / 10.0) % 10.0).floor() as u8`.
The `%` (IEEE remainder, `fmod`) of the dyadic quotient `m / 2^k` by `10.0`
is exact: it equals `(m mod (10 * 2^k)) / 2^k`; `floor` and the cast are
exact. -/
def bcdTens (vx : Nat) : Nat :=
  let mk := f32Div vx 10
  (mk.1 % (10 * 2 ^ mk.2)) / 2 ^ mk.2

/-- Fx33's ones digit: `((vx as f32) % 10.0) as u8` — both operands are
exact integers in `f32`, `fmod` is exact, and the truncating cast of the
exact integer result gives `vx % 10`. -/
def bcdOnes (vx : Nat) : Nat :=
  vx % 10

/-- `Chip8::execute`, arm by arm in source order.  The Rust `match` on the
four nibbles becomes a first-match if-chain (Rust `match` is first-match).
`rng` is the byte drawn by `rand::random::<u8>()` in the Cxnn arm, passed
in as an oracle input.  The final wildcard arm is `unimplemented!`, a
panic (`none`). -/
def execute (s : Chip8) (rng : Nat) (op : Nat) : Option Chip8 :=
  let d1 := (op &&& 0xF000) >>> 12
  let d2 := (op &&& 0x0F00) >>> 8
  let d3 := (op &&& 0x00F0) >>> 4
  let d4 := op &&& 0x000F
  -- NOP
  if d1 = 0 ∧ d2 = 0 ∧ d3 = 0 ∧ d4 = 0 then some s
  -- 00E0: clear screen
  else if d1 = 0 ∧ d2 = 0 ∧ d3 = 0xE ∧ d4 = 0 then
    some { s with screen := fun _ => false }
  -- 00EE: RET
  else if d1 = 0 ∧ d2 = 0 ∧ d3 = 0xE ∧ d4 = 0xE then do
    let (ret_addr, s1) ← s.pop
    some { s1 with pc := ret_addr }
  -- 1nnn: JMP
  else if d1 = 1 then
    some { s with pc := op &&& 0xFFF }
  -- 2nnn: CALL
  else if d1 = 2 then do
    let s1 ← s.push s.pc
    some { s1 with pc := op &&& 0xFFF }
  -- 3xnn: skip if Vx == nn
  else if d1 = 3 then
    let nn := op &&& 0xFF
    some (if s.v_reg d2 = nn then { s with pc := s.pc + 2 } else s)
  -- 4xnn: skip if Vx != nn
  else if d1 = 4 then
    let nn := op &&& 0xFF
    some (if s.v_reg d2 ≠ nn then { s with pc := s.pc + 2 } else s)
  -- 5xy0: skip if Vx == Vy
  else if d1 = 5 ∧ d4 = 0 then
    some (if s.v_reg d2 = s.v_reg d3 then { s with pc := s.pc + 2 } else s)
  -- 6xnn: Vx = nn
  else if d1 = 6 then
    some { s with v_reg := fun i => if i = d2 then op &&& 0xFF else s.v_reg i }
  -- 7xnn: Vx = Vx wrapping_add nn
  else if d1 = 7 then
    some { s with v_reg := fun i =>
      if i = d2 then (s.v_reg d2 + (op &&& 0xFF)) % 256 else s.v_reg i }
  -- 8xy0: Vx = Vy
  else if d1 = 8 ∧ d4 = 0 then
    some { s with v_reg := fun i => if i = d2 then s.v_reg d3 else s.v_reg i }
  -- 8xy1: Vx |= Vy
  else if d1 = 8 ∧ d4 = 1 then
    some { s with v_reg := fun i =>
      if i = d2 then s.v_reg d2 ||| s.v_reg d3 else s.v_reg i }
  -- 8xy2: Vx &= Vy
  else if d1 = 8 ∧ d4 = 2 then
    some { s with v_reg := fun i =>
      if i = d2 then s.v_reg d2 &&& s.v_reg d3 else s.v_reg i }
  -- 8xy3: Vx ^= Vy
  else if d1 = 8 ∧ d4 = 3 then
    some { s with v_reg := fun i =>
      if i = d2 then s.v_reg d2 ^^^ s.v_reg d3 else s.v_reg i }
  -- 8xy4: Vx, carry = Vx overflowing_add Vy; v_reg[x] = sum, then v_reg[F] = flag
  else if d1 = 8 ∧ d4 = 4 then
    let new_vx := (s.v_reg d2 + s.v_reg d3) % 256
    let new_vf := if 256 ≤ s.v_reg d2 + s.v_reg d3 then 1 else 0
    let s1 : Chip8 :=
      { s with v_reg := fun i => if i = d2 then new_vx else s.v_reg i }
    some { s1 with v_reg := fun i => if i = 0xF then new_vf else s1.v_reg i }
  -- 8xy5: Vx, borrow = Vx overflowing_sub Vy; v_reg[x] = diff, then v_reg[F] = flag
  else if d1 = 8 ∧ d4 = 5 then
    let new_vx := (s.v_reg d2 + 256 - s.v_reg d3) % 256
    let new_vf := if s.v_reg d2 < s.v_reg d3 then 0 else 1
    let s1 : Chip8 :=
      { s with v_reg := fun i => if i = d2 then new_vx else s.v_reg i }
    some { s1 with v_reg := fun i => if i = 0xF then new_vf else s1.v_reg i }
  -- 8xy6: VF = lsb of Vx (read first), Vx >>= 1
  else if d1 = 8 ∧ d4 = 6 then
    let lsb := s.v_reg d2 &&& 1
    let s1 : Chip8 :=
      { s with v_reg := fun i => if i = d2 then s.v_reg d2 >>> 1 else s.v_reg i }
    some { s1 with v_reg := fun i => if i = 0xF then lsb else s1.v_reg i }
  -- 8xy7: Vx, borrow = Vy overflowing_sub Vx; v_reg[x] = diff, then v_reg[F] = flag
  else if d1 = 8 ∧ d4 = 7 then
    let new_vx := (s.v_reg d3 + 256 - s.v_reg d2) % 256
    let new_vf := if s.v_reg d3 < s.v_reg d2 then 0 else 1
    let s1 : Chip8 :=
      { s with v_reg := fun i => if i = d2 then new_vx else s.v_reg i }
    some { s1 with v_reg := fun i => if i = 0xF then new_vf else s1.v_reg i }
  -- 8xyE: VF = msb of Vx (read first), Vx <<= 1 (u8 truncation)
  else if d1 = 8 ∧ d4 = 0xE then
    let msb := (s.v_reg d2 >>> 7) &&& 1
    let s1 : Chip8 :=
      { s with v_reg := fun i =>
        if i = d2 then (s.v_reg d2 <<< 1) % 256 else s.v_reg i }
    some { s1 with v_reg := fun i => if i = 0xF then msb else s1.v_reg i }
  -- 9xy0: skip if Vx != Vy
  else if d1 = 9 ∧ d4 = 0 then
    some (if s.v_reg d2 ≠ s.v_reg d3 then { s with pc := s.pc + 2 } else s)
  -- Annn: I = nnn
  else if d1 = 0xA then
    some { s with i_reg := op &&& 0xFFF }
  -- Bnnn: PC = V0 + nnn
  else if d1 = 0xB then
    some { s with pc := s.v_reg 0 + (op &&& 0xFFF) }
  -- Cxnn: Vx = rng & nn
  else if d1 = 0xC then
    some { s with v_reg := fun i =>
      if i = d2 then rng &&& (op &&& 0xFF) else s.v_reg i }
  -- Dxyn: draw sprite, then VF = collision flag
  else if d1 = 0xD then do
    let (s1, flipped) ← s.drawSprite (s.v_reg d2) (s.v_reg d3) d4
    some { s1 with v_reg := fun i =>
      if i = 0xF then (if flipped then 1 else 0) else s1.v_reg i }
  -- Ex9E: skip if key[Vx] pressed
  else if d1 = 0xE ∧ d3 = 9 ∧ d4 = 0xE then do
    let key ← s.readKey (s.v_reg d2)
    some (if key then { s with pc := s.pc + 2 } else s)
  -- ExA1: skip if key[Vx] not pressed
  else if d1 = 0xE ∧ d3 = 0xA ∧ d4 = 1 then do
    let key ← s.readKey (s.v_reg d2)
    some (if key then s else { s with pc := s.pc + 2 })
  -- Fx07: Vx = DT
  else if d1 = 0xF ∧ d3 = 0 ∧ d4 = 7 then
    some { s with v_reg := fun i => if i = d2 then s.dt else s.v_reg i }
  -- Fx0A: wait for key; if none pressed, PC -= 2 (re-execute next tick).
  -- `pc -= 2` is checked u16 arithmetic: it panics when pc < 2.
  else if d1 = 0xF ∧ d3 = 0 ∧ d4 = 0xA then
    match s.firstKey with
    | some i =>
      some { s with v_reg := fun j => if j = d2 then i else s.v_reg j }
    | none => if 2 ≤ s.pc then some { s with pc := s.pc - 2 } else none
  -- Fx15: DT = Vx
  else if d1 = 0xF ∧ d3 = 1 ∧ d4 = 5 then
    some { s with dt := s.v_reg d2 }
  -- Fx18: ST = Vx
  else if d1 = 0xF ∧ d3 = 1 ∧ d4 = 8 then
    some { s with st := s.v_reg d2 }
  -- Fx1E: I = I wrapping_add Vx (16-bit)
  else if d1 = 0xF ∧ d3 = 1 ∧ d4 = 0xE then
    some { s with i_reg := (s.i_reg + s.v_reg d2) % 65536 }
  -- Fx29: I = Vx * 5
  else if d1 = 0xF ∧ d3 = 2 ∧ d4 = 9 then
    some { s with i_reg := s.v_reg d2 * 5 }
  -- Fx33: BCD of Vx at I, I+1, I+2 (computed via f32, see bcd* models)
  else if d1 = 0xF ∧ d3 = 3 ∧ d4 = 3 then do
    let s1 ← s.writeRam s.i_reg (bcdHundreds (s.v_reg d2))
    let s2 ← s1.writeRam (s.i_reg + 1) (bcdTens (s.v_reg d2))
    s2.writeRam (s.i_reg + 2) (bcdOnes (s.v_reg d2))
  -- Fx55: store V0..=Vx at I
  else if d1 = 0xF ∧ d3 = 5 ∧ d4 = 5 then
    let i := s.i_reg
    (List.range (d2 + 1)).foldlM (fun t idx => t.writeRam (i + idx) (t.v_reg idx)) s
  -- Fx65: load V0..=Vx from I
  else if d1 = 0xF ∧ d3 = 6 ∧ d4 = 5 then
    let i := s.i_reg
    (List.range (d2 + 1)).foldlM
      (fun t idx => (t.readRam (i + idx)).map (fun v =>
        { t with v_reg := fun j => if j = idx then v else t.v_reg j })) s
  -- wildcard arm: unimplemented! — panic
  else none

/-- `Chip8::tick`: fetch, then execute. -/
def tick (s : Chip8) (rng : Nat) : Option Chip8 := do
  let (op, s1) ← s.fetch
  s1.execute rng op

/-- Iterated `tick` (the external driver's loop), same oracle byte each
tick; the oracle only matters to Cxnn. -/
def ticks (s : Chip8) (rng : Nat) : Nat → Option Chip8
  | 0 => some s
  | n + 1 => do
    let s1 ← s.tick rng
    s1.ticks rng n

/-- Harness for the stack round-trip property: push the addresses of a list
in order. -/
def pushList (s : Chip8) : List Nat → Option Chip8
  | [] => some s
  | v :: rest => do
    let s1 ← s.push v
    s1.pushList rest

/-- Harness for the stack round-trip property: pop `n` times, collecting
the popped values in pop order. -/
def popN (s : Chip8) : Nat → Option (List Nat × Chip8)
  | 0 => some ([], s)
  | n + 1 => do
    let (vs, s1) ← s.popN n
    let (v, s2) ← s1.pop
    some (vs ++ [v], s2)

/-! ### Arithmetic helpers for decoding

The source extracts nibbles with `&` and `>>`; these lemmas convert those
bit operations to division/remainder form so that `omega` can compute
nibbles of symbolically built opcodes. -/

theorem maskShift_eq (n k w : Nat) :
    (n &&& ((2 ^ w - 1) <<< k)) >>> k = n >>> k % 2 ^ w := by
  apply Nat.eq_of_testBit_eq
  intro j
  simp only [Nat.testBit_shiftRight, Nat.testBit_and, Nat.testBit_shiftLeft,
    Nat.testBit_mod_two_pow, Nat.testBit_two_pow_sub_one]
  have e1 : k + j - k = j := by omega
  have e2 : k ≤ k + j := Nat.le_add_right k j
  simp [e1, e2, Bool.and_comm]

theorem nib1_eq (n : Nat) : (n &&& 0xF000) >>> 12 = n / 4096 % 16 := by
  have h := maskShift_eq n 12 4
  norm_num [Nat.shiftLeft_eq, Nat.shiftRight_eq_div_pow] at h
  rw [Nat.shiftRight_eq_div_pow, show (2:Nat) ^ 12 = 4096 by norm_num]
  exact h

theorem nib2_eq (n : Nat) : (n &&& 0x0F00) >>> 8 = n / 256 % 16 := by
  have h := maskShift_eq n 8 4
  norm_num [Nat.shiftLeft_eq, Nat.shiftRight_eq_div_pow] at h
  rw [Nat.shiftRight_eq_div_pow, show (2:Nat) ^ 8 = 256 by norm_num]
  exact h

theorem nib3_eq (n : Nat) : (n &&& 0x00F0) >>> 4 = n / 16 % 16 := by
  have h := maskShift_eq n 4 4
  norm_num [Nat.shiftLeft_eq, Nat.shiftRight_eq_div_pow] at h
  rw [Nat.shiftRight_eq_div_pow, show (2:Nat) ^ 4 = 16 by norm_num]
  exact h

theorem nib4_eq (n : Nat) : n &&& 0x000F = n % 16 := by
  have h := maskShift_eq n 0 4
  norm_num [Nat.shiftLeft_eq, Nat.shiftRight_eq_div_pow] at h
  exact h

theorem low8_eq (n : Nat) : n &&& 0xFF = n % 256 := by
  have h := maskShift_eq n 0 8
  norm_num [Nat.shiftLeft_eq, Nat.shiftRight_eq_div_pow] at h
  exact h

theorem low12_eq (n : Nat) : n &&& 0xFFF = n % 4096 := by
  have h := maskShift_eq n 0 12
  norm_num [Nat.shiftLeft_eq, Nat.shiftRight_eq_div_pow] at h
  exact h

theorem byteOr_eq (hi lo : Nat) (h : lo < 256) :
    (hi <<< 8) ||| lo = 256 * hi + lo := by
  apply Nat.eq_of_testBit_eq
  intro j
  have h2 : lo < 2 ^ 8 := h
  rw [show (256 * hi + lo) = 2 ^ 8 * hi + lo by ring,
    Nat.testBit_mul_pow_two_add hi h2 j]
  simp only [Nat.testBit_or, Nat.testBit_shiftLeft]
  rcases Nat.lt_or_ge j 8 with hj | hj
  · simp [hj, Nat.not_le.mpr hj]
  · have : lo.testBit j = false :=
      Nat.testBit_lt_two_pow (lt_of_lt_of_le h2 (Nat.pow_le_pow_right (by norm_num) hj))
    simp [hj, Nat.not_lt.mpr hj, this]

/-! ### Opcode step lemmas

Each lemma reduces `execute` on a symbolically encoded opcode of one family
to its explicit result state. -/

theorem exec_sub5 (s : Chip8) (rng x y : Nat) (hx : x < 16) (hy : y < 16) :
    s.execute rng (0x8005 + 256 * x + 16 * y) = some
      { s with v_reg := fun i =>
          if i = 15 then (if s.v_reg x < s.v_reg y then 0 else 1)
          else if i = x then (s.v_reg x + 256 - s.v_reg y) % 256
          else s.v_reg i } := by
  have e1 : (0x8005 + 256 * x + 16 * y) / 4096 % 16 = 8 := by omega
  have e2 : (0x8005 + 256 * x + 16 * y) / 256 % 16 = x := by omega
  have e3 : (0x8005 + 256 * x + 16 * y) / 16 % 16 = y := by omega
  have e4 : (0x8005 + 256 * x + 16 * y) % 16 = 5 := by omega
  simp [execute, nib1_eq, nib2_eq, nib3_eq, nib4_eq, e1, e2, e3, e4]

theorem exec_sub7 (s : Chip8) (rng x y : Nat) (hx : x < 16) (hy : y < 16) :
    s.execute rng (0x8007 + 256 * x + 16 * y) = some
      { s with v_reg := fun i =>
          if i = 15 then (if s.v_reg y < s.v_reg x then 0 else 1)
          else if i = x then (s.v_reg y + 256 - s.v_reg x) % 256
          else s.v_reg i } := by
  have e1 : (0x8007 + 256 * x + 16 * y) / 4096 % 16 = 8 := by omega
  have e2 : (0x8007 + 256 * x + 16 * y) / 256 % 16 = x := by omega
  have e3 : (0x8007 + 256 * x + 16 * y) / 16 % 16 = y := by omega
  have e4 : (0x8007 + 256 * x + 16 * y) % 16 = 7 := by omega
  simp [execute, nib1_eq, nib2_eq, nib3_eq, nib4_eq, e1, e2, e3, e4]

theorem exec_rand (s : Chip8) (rng x nn : Nat) (hx : x < 16) (hnn : nn < 256) :
    s.execute rng (0xC000 + 256 * x + nn) = some
      { s with v_reg := fun i =>
          if i = x then rng &&& nn else s.v_reg i } := by
  have e1 : (0xC000 + 256 * x + nn) / 4096 % 16 = 12 := by omega
  have e2 : (0xC000 + 256 * x + nn) / 256 % 16 = x := by omega
  have e8 : (0xC000 + 256 * x + nn) % 256 = nn := by omega
  simp [execute, nib1_eq, nib2_eq, nib3_eq, nib4_eq, low8_eq, e1, e2, e8]

end Chip8

/-! ### Concrete states used by witnesses and counterexamples -/

/-- A zeroed machine with `pc = 0x200` (the state `Chip8::new` produces,
minus the font bytes, which no claim touches). -/
def baseState : Chip8 :=
  { pc := 0x200, ram := fun _ => 0, screen := fun _ => false, v_reg := fun _ => 0,
    i_reg := 0, sp := 0, stack := fun _ => 0, dt := 0, st := 0, keys := fun _ => false }

/-- State with `VF = 5` and `V0 = 3`, exercising 8xy5 at `x = 0xF`. -/
def subFlagState : Chip8 :=
  { baseState with v_reg := fun i => if i = 15 then 5 else if i = 0 then 3 else 0 }

/-- State with `V2 = 5` and `V3 = 3`. -/
def subState : Chip8 :=
  { baseState with v_reg := fun i => if i = 2 then 5 else if i = 3 then 3 else 0 }

/-! ### C2 -/

/-- C2 counterexample: the claim quantifies over all register indices, but
for `x = 0xF` the flag write lands on the same register as the difference.
Executing `8F05` with `VF = 5`, `V0 = 3`: the claim says Vx (= VF) ends as
the wrapped difference `(5 - 3) mod 256 = 2`; the code leaves `VF = 1`
(the no-borrow flag overwrites the difference). -/
theorem C2_counterexample :
    ∃ s', Chip8.execute subFlagState 0 0x8F05 = some s' ∧
      s'.v_reg 0xF = 1 ∧ ¬ s'.v_reg 0xF = (5 + 256 - 3) % 256 := by
  have h := Chip8.exec_sub5 subFlagState 0 15 0 (by norm_num) (by norm_num)
  norm_num at h
  exact ⟨_, h, by norm_num [subFlagState, baseState], by norm_num [subFlagState, baseState]⟩

/-- C2 (amended): for all register indices x, y, 8xy5 sets VF to 1 iff
Vx ≥ Vy held before the subtraction and — provided x ≠ 0xF — sets Vx to
Vx − Vy wrapping modulo 256 (for x = 0xF the subsequent flag write
overwrites the difference); symmetrically for 8xy7 with Vy − Vx.  Other
registers, pc, ram and screen are untouched. -/
theorem C2_sub_borrow_flags (s : Chip8) (rng x y : Nat) (hx : x < 16) (hy : y < 16) :
    (∃ s', Chip8.execute s rng (0x8005 + 256 * x + 16 * y) = some s' ∧
      (s'.v_reg 0xF = if s.v_reg x < s.v_reg y then 0 else 1) ∧
      (x ≠ 0xF → s'.v_reg x = (s.v_reg x + 256 - s.v_reg y) % 256) ∧
      (∀ i, i ≠ x → i ≠ 0xF → s'.v_reg i = s.v_reg i) ∧
      s'.pc = s.pc ∧ s'.ram = s.ram ∧ s'.screen = s.screen) ∧
    (∃ s', Chip8.execute s rng (0x8007 + 256 * x + 16 * y) = some s' ∧
      (s'.v_reg 0xF = if s.v_reg y < s.v_reg x then 0 else 1) ∧
      (x ≠ 0xF → s'.v_reg x = (s.v_reg y + 256 - s.v_reg x) % 256) ∧
      (∀ i, i ≠ x → i ≠ 0xF → s'.v_reg i = s.v_reg i) ∧
      s'.pc = s.pc ∧ s'.ram = s.ram ∧ s'.screen = s.screen) := by
  constructor
  · refine ⟨_, Chip8.exec_sub5 s rng x y hx hy, by simp, fun hxf => by simp [hxf],
      fun i hix hif => by simp [hix, hif], by simp, by simp, by simp⟩
  · refine ⟨_, Chip8.exec_sub7 s rng x y hx hy, by simp, fun hxf => by simp [hxf],
      fun i hix hif => by simp [hix, hif], by simp, by simp, by simp⟩

/-- C2 witness: `8235` on `V2 = 5`, `V3 = 3` gives `V2 = 2`, `VF = 1`;
`8237` gives `V2 = 254` (wrap), `VF = 0`. -/
theorem C2_sub_borrow_flags_witness :
    (2 : Nat) < 16 ∧ (3 : Nat) < 16 ∧
    (∃ s', Chip8.execute subState 0 0x8235 = some s' ∧ s'.v_reg 0xF = 1 ∧ s'.v_reg 2 = 2) ∧
    (∃ s', Chip8.execute subState 0 0x8237 = some s' ∧ s'.v_reg 0xF = 0 ∧ s'.v_reg 2 = 254) := by
  have h := C2_sub_borrow_flags subState 0 2 3 (by norm_num) (by norm_num)
  obtain ⟨⟨s5, he5, hvf5, hvx5, -, -, -, -⟩, ⟨s7, he7, hvf7, hvx7, -, -, -, -⟩⟩ := h
  refine ⟨by norm_num, by norm_num,
    ⟨s5, by rw [show (0x8235 : Nat) = 0x8005 + 256 * 2 + 16 * 3 by norm_num]; exact he5, ?_, ?_⟩,
    ⟨s7, by rw [show (0x8237 : Nat) = 0x8007 + 256 * 2 + 16 * 3 by norm_num]; exact he7, ?_, ?_⟩⟩
  · rw [hvf5]; norm_num [subState, baseState]
  · rw [hvx5 (by norm_num)]; norm_num [subState, baseState]
  · rw [hvf7]; norm_num [subState, baseState]
  · rw [hvx7 (by norm_num)]; norm_num [subState, baseState]

/-! ### C10 -/

/-- C10: Cx00 masks the random byte with `nn = 0`, so Vx is set to 0 and the
resulting state is independent of the random byte: two executions with any
two oracle outcomes agree. -/
theorem C10_rand_masked_to_zero (s : Chip8) (r1 r2 x : Nat) (hx : x < 16) :
    Chip8.execute s r1 (0xC000 + 256 * x) = some
      { s with v_reg := fun i => if i = x then 0 else s.v_reg i } ∧
    Chip8.execute s r1 (0xC000 + 256 * x) = Chip8.execute s r2 (0xC000 + 256 * x) := by
  have h1 := Chip8.exec_rand s r1 x 0 hx (by norm_num)
  have h2 := Chip8.exec_rand s r2 x 0 hx (by norm_num)
  norm_num at h1 h2
  exact ⟨h1, h1.trans h2.symm⟩

/-- C10 witness: concrete instance at `x = 0`, oracle bytes 7 and 99. -/
theorem C10_rand_masked_to_zero_witness :
    Chip8.execute baseState 7 0xC000 = Chip8.execute baseState 99 0xC000 ∧
    (∃ s', Chip8.execute baseState 7 0xC000 = some s' ∧ s'.v_reg 0 = 0) := by
  have h := C10_rand_masked_to_zero baseState 7 99 0 (by norm_num)
  norm_num at h
  exact ⟨h.2, ⟨_, h.1, by norm_num⟩⟩

/-! ### C4 -/

/-- State with `DT = 5`, `ST = 1`: the input on which the claimed beep edge
should fire. -/
def beepState : Chip8 :=
  { baseState with dt := 5, st := 1 }

/-- C4 (code evaluated at the failing input): on `DT = 5`, `ST = 1` the
complete result of `tick_timers` is the same state with `DT = 4`, `ST = 0`
— the decrements happen, but the function returns nothing else: the
`if self.st == 1` block in the source is empty (just a `// BEEP` comment),
so no beep edge accompanies ST reaching 0 from 1. -/
theorem C4_tick_timers_no_beep :
    (Chip8.tick_timers beepState).dt = 4 ∧
    (Chip8.tick_timers beepState).st = 0 ∧
    (Chip8.tick_timers beepState).pc = beepState.pc ∧
    (Chip8.tick_timers beepState).ram = beepState.ram ∧
    (Chip8.tick_timers beepState).screen = beepState.screen ∧
    (Chip8.tick_timers beepState).v_reg = beepState.v_reg ∧
    (Chip8.tick_timers beepState).i_reg = beepState.i_reg ∧
    (Chip8.tick_timers beepState).sp = beepState.sp ∧
    (Chip8.tick_timers beepState).stack = beepState.stack ∧
    (Chip8.tick_timers beepState).keys = beepState.keys :=
  ⟨rfl, rfl, rfl, rfl, rfl, rfl, rfl, rfl, rfl, rfl⟩

/-! ### C5 and C6 -/

theorem C5_load_bounds (s : Chip8) (data : List Nat) :
    (MEM_SIZE - START_ADDR < data.length → Chip8.load s data = none) ∧
    (data.length ≤ MEM_SIZE - START_ADDR →
      ∃ s', Chip8.load s data = some s' ∧
        (∀ i, i < data.length → s'.ram (START_ADDR + i) = data.getD i 0) ∧
        (∀ a, a < START_ADDR ∨ START_ADDR + data.length ≤ a → s'.ram a = s.ram a) ∧
        s'.pc = s.pc ∧ s'.screen = s.screen ∧ s'.v_reg = s.v_reg ∧ s'.i_reg = s.i_reg ∧
        s'.sp = s.sp ∧ s'.stack = s.stack ∧ s'.dt = s.dt ∧ s'.st = s.st ∧ s'.keys = s.keys) := by
  constructor
  · intro h
    have hc : ¬ (data.length + START_ADDR ≤ MEM_SIZE) := by
      simp only [MEM_SIZE, START_ADDR] at *; omega
    simp [Chip8.load, hc]
  · intro h
    have hc : data.length + START_ADDR ≤ MEM_SIZE := by
      simp only [MEM_SIZE, START_ADDR] at *; omega
    refine ⟨{ s with ram := fun a =>
        (if START_ADDR ≤ a ∧ a < data.length + START_ADDR then data.getD (a - START_ADDR) 0
         else s.ram a) }, by simp [Chip8.load, hc], ?_, ?_, rfl, rfl, rfl, rfl, rfl, rfl, rfl, rfl, rfl⟩
    · intro i hi
      have hcond : START_ADDR ≤ START_ADDR + i ∧ START_ADDR + i < data.length + START_ADDR := by omega
      simp only [hcond, and_self, if_pos, Nat.add_sub_cancel_left]
    · intro a ha
      have hcond : ¬ (START_ADDR ≤ a ∧ a < data.length + START_ADDR) := by omega
      simp [hcond]

theorem pushList_spec (vals : List Nat) : ∀ s : Chip8, s.sp + vals.length ≤ 16 →
    ∃ s', Chip8.pushList s vals = some s' ∧ s'.sp = s.sp + vals.length ∧
      (∀ i, i < s.sp → s'.stack i = s.stack i) ∧
      (∀ j, j < vals.length → s'.stack (s.sp + j) = vals.getD j 0) := by
  induction vals with
  | nil =>
    intro s h
    exact ⟨s, rfl, by simp, fun i _ => rfl, fun j hj => by simp at hj⟩
  | cons v rest ih =>
    intro s h
    simp only [List.length_cons] at h
    have hsp : s.sp < 16 := by omega
    have hpush : Chip8.push s v = some
        { s with stack := fun i => if i = s.sp then v else s.stack i, sp := s.sp + 1 } := by
      simp [Chip8.push, STACK_SIZE, hsp]
    obtain ⟨s', hps, hsp', hbelow, hat⟩ :=
      ih { s with stack := fun i => if i = s.sp then v else s.stack i, sp := s.sp + 1 }
        (by simp; omega)
    refine ⟨s', ?_, ?_, ?_, ?_⟩
    · simp only [Chip8.pushList, hpush, Option.bind_eq_bind, Option.some_bind]
      exact hps
    · simp only [List.length_cons]
      simp at hsp'
      omega
    · intro i hi
      have h1 := hbelow i (by simp; omega)
      simp only [h1]
      simp [Nat.ne_of_lt hi]
    · intro j hj
      match j with
      | 0 =>
        have h1 := hbelow s.sp (by simp)
        simpa using h1
      | k + 1 =>
        have h1 := hat k (by simp at hj ⊢; omega)
        simp only [List.getD_cons_succ]
        rw [show s.sp + (k + 1) = s.sp + 1 + k by omega]
        simpa using h1

/-- Effect of popping `n` times: the popped values (in pop order) read the
stack downwards from the old top; the array itself is unchanged and the
depth drops by `n`. -/
theorem popN_spec (n : Nat) : ∀ s : Chip8, n ≤ s.sp →
    ∃ out s', Chip8.popN s n = some (out, s') ∧ s'.sp = s.sp - n ∧ s'.stack = s.stack ∧
      out.length = n ∧ (∀ j, j < n → out.getD j 0 = s.stack (s.sp - 1 - j)) := by
  induction n with
  | zero =>
    intro s h
    exact ⟨[], s, rfl, by omega, rfl, rfl, fun j hj => by omega⟩
  | succ n ih =>
    intro s h
    obtain ⟨out, s', hpn, hsp, hstk, hlen, hget⟩ := ih s (by omega)
    have hs'nz : ¬ s'.sp = 0 := by omega
    have hpop : Chip8.pop s' = some (s'.stack (s'.sp - 1), { s' with sp := s'.sp - 1 }) := by
      simp [Chip8.pop, hs'nz]
    refine ⟨out ++ [s'.stack (s'.sp - 1)], { s' with sp := s'.sp - 1 }, ?_, ?_, ?_, ?_, ?_⟩
    · simp only [Chip8.popN, hpn, Option.bind_eq_bind, Option.some_bind, hpop]
    · simp only []
      omega
    · simp only [hstk]
    · simp [hlen]
    · intro j hj
      rcases Nat.lt_or_ge j n with hjn | hjn
      · rw [List.getD_append _ _ _ _ (by omega)]
        exact hget j hjn
      · have hje : j = n := by omega
        subst hje
        rw [List.getD_eq_getElem _ _ (by simp [hlen])]
        rw [List.getElem_concat_length out _ j hlen.symm (by simp [hlen])]
        rw [hstk, hsp]
        congr 1
        omega

/-- C6: push/pop form a LIFO over the 16-entry stack: with room for `N`
addresses (`sp + N ≤ 16`), pushing them and popping `N` times returns them
in reverse order with the depth back at its starting value; pushing at
depth 16 is a fatal error (`none`), popping at depth 0 is a fatal error,
and a successful push never leaves depth above 16. -/
theorem C6_stack_lifo (s : Chip8) (vals : List Nat) (h : s.sp + vals.length ≤ 16) :
    (∃ s', Chip8.pushList s vals = some s' ∧ s'.sp = s.sp + vals.length ∧
      ∃ s'', Chip8.popN s' vals.length = some (vals.reverse, s'') ∧ s''.sp = s.sp) ∧
    (∀ t : Chip8, t.sp = 16 → ∀ v, Chip8.push t v = none) ∧
    (∀ t : Chip8, t.sp = 0 → Chip8.pop t = none) ∧
    (∀ t t' : Chip8, ∀ v, Chip8.push t v = some t' → t'.sp ≤ 16) := by
  refine ⟨?_, ?_, ?_, ?_⟩
  · obtain ⟨s', hps, hsp', hbelow, hat⟩ := pushList_spec vals s h
    obtain ⟨out, s'', hpn, hsp'', hstk, hlen, hget⟩ := popN_spec vals.length s' (by omega)
    have hout : out = vals.reverse := by
      apply List.ext_getElem (by simp [hlen])
      intro i h1 h2
      rw [List.getElem_reverse]
      rw [← List.getD_eq_getElem out 0 h1, hget i (by omega)]
      rw [hsp']
      rw [show s.sp + vals.length - 1 - i = s.sp + (vals.length - 1 - i) by omega]
      rw [hat (vals.length - 1 - i) (by simp at h2; omega)]
      rw [List.getD_eq_getElem _ _ (by simp at h2; omega)]
    refine ⟨s', hps, hsp', s'', ?_, by omega⟩
    rw [← hout]
    exact hpn
  · intro t ht v
    simp [Chip8.push, STACK_SIZE, ht]
  · intro t ht
    simp [Chip8.pop, ht]
  · intro t t' v hp
    by_cases hc : t.sp < 16
    · simp [Chip8.push, STACK_SIZE, hc] at hp
      rw [← hp]
      simp
      omega
    · simp [Chip8.push, STACK_SIZE, hc] at hp

/-- C6 witness: pushing `[10, 20, 30]` onto the empty stack and popping
three times yields `[30, 20, 10]`; a push at depth 16 and a pop at depth 0
both fail. -/
theorem C6_stack_lifo_witness :
    (∃ s', Chip8.pushList baseState [10, 20, 30] = some s' ∧ s'.sp = 3 ∧
      ∃ s'', Chip8.popN s' 3 = some ([30, 20, 10], s'') ∧ s''.sp = 0) ∧
    Chip8.push { baseState with sp := 16 } 7 = none ∧
    Chip8.pop baseState = none := by
  have h := C6_stack_lifo baseState [10, 20, 30] (by simp [baseState])
  obtain ⟨⟨s', hps, hsp, s'', hpn, hsp''⟩, hover, hunder, -⟩ := h
  refine ⟨⟨s', hps, by simpa [baseState] using hsp, s'', by simpa using hpn,
    by simpa [baseState] using hsp''⟩, ?_, ?_⟩
  · exact hover _ rfl 7
  · exact hunder baseState rfl

/-! ### C7 -/

/-- Reduction of `fetch` when both byte reads are in bounds. -/
theorem fetch_eq (s : Chip8) (h : s.pc + 1 < 4096) :
    Chip8.fetch s = some ((s.ram s.pc <<< 8) ||| s.ram (s.pc + 1), { s with pc := s.pc + 2 }) := by
  have h0 : s.pc < MEM_SIZE := by simp [MEM_SIZE]; omega
  have h1 : s.pc + 1 < MEM_SIZE := by simp [MEM_SIZE]; omega
  simp [Chip8.fetch, Chip8.readRam, h0, h1]

/-- One `tick` on a 3xnn opcode: fetch advances by 2, the skip adds 2 more
when `Vx = nn`; nothing else changes. -/
theorem tick_3xnn (s : Chip8) (rng x nn : Nat) (hx : x < 16) (hnn : nn < 256)
    (hpc : s.pc + 1 < 4096) (hb0 : s.ram s.pc = 0x30 + x) (hb1 : s.ram (s.pc + 1) = nn) :
    Chip8.tick s rng = some
      (if s.v_reg x = nn then { s with pc := s.pc + 4 } else { s with pc := s.pc + 2 }) := by
  have hfetch := fetch_eq s hpc
  rw [hb0, hb1, Chip8.byteOr_eq _ _ hnn] at hfetch
  have e1 : (256 * (0x30 + x) + nn) / 4096 % 16 = 3 := by omega
  have e2 : (256 * (0x30 + x) + nn) / 256 % 16 = x := by omega
  have e8 : (256 * (0x30 + x) + nn) % 256 = nn := by omega
  have e9 : s.pc + 2 + 2 = s.pc + 4 := by omega
  simp only [Chip8.tick, hfetch, Option.bind_eq_bind, Option.some_bind]
  simp [Chip8.execute, Chip8.nib1_eq, Chip8.nib2_eq, Chip8.nib3_eq, Chip8.nib4_eq, Chip8.low8_eq, e1, e2, e8, e9]

/-- One `tick` on a 4xnn opcode (skip when `Vx ≠ nn`). -/
theorem tick_4xnn (s : Chip8) (rng x nn : Nat) (hx : x < 16) (hnn : nn < 256)
    (hpc : s.pc + 1 < 4096) (hb0 : s.ram s.pc = 0x40 + x) (hb1 : s.ram (s.pc + 1) = nn) :
    Chip8.tick s rng = some
      (if s.v_reg x ≠ nn then { s with pc := s.pc + 4 } else { s with pc := s.pc + 2 }) := by
  have hfetch := fetch_eq s hpc
  rw [hb0, hb1, Chip8.byteOr_eq _ _ hnn] at hfetch
  have e1 : (256 * (0x40 + x) + nn) / 4096 % 16 = 4 := by omega
  have e2 : (256 * (0x40 + x) + nn) / 256 % 16 = x := by omega
  have e8 : (256 * (0x40 + x) + nn) % 256 = nn := by omega
  have e9 : s.pc + 2 + 2 = s.pc + 4 := by omega
  simp only [Chip8.tick, hfetch, Option.bind_eq_bind, Option.some_bind]
  simp [Chip8.execute, Chip8.nib1_eq, Chip8.nib2_eq, Chip8.nib3_eq, Chip8.nib4_eq,
    Chip8.low8_eq, e1, e2, e8, e9]

/-- One `tick` on a 5xy0 opcode (skip when `Vx = Vy`). -/
theorem tick_5xy0 (s : Chip8) (rng x y : Nat) (hx : x < 16) (hy : y < 16)
    (hpc : s.pc + 1 < 4096) (hb0 : s.ram s.pc = 0x50 + x) (hb1 : s.ram (s.pc + 1) = 16 * y) :
    Chip8.tick s rng = some
      (if s.v_reg x = s.v_reg y then { s with pc := s.pc + 4 } else { s with pc := s.pc + 2 }) := by
  have hfetch := fetch_eq s hpc
  rw [hb0, hb1, Chip8.byteOr_eq _ _ (by omega)] at hfetch
  have e1 : (256 * (0x50 + x) + 16 * y) / 4096 % 16 = 5 := by omega
  have e2 : (256 * (0x50 + x) + 16 * y) / 256 % 16 = x := by omega
  have e3 : (256 * (0x50 + x) + 16 * y) / 16 % 16 = y := by omega
  have e4 : (256 * (0x50 + x) + 16 * y) % 16 = 0 := by omega
  have e9 : s.pc + 2 + 2 = s.pc + 4 := by omega
  simp only [Chip8.tick, hfetch, Option.bind_eq_bind, Option.some_bind]
  simp [Chip8.execute, Chip8.nib1_eq, Chip8.nib2_eq, Chip8.nib3_eq, Chip8.nib4_eq, e1, e2, e3, e4, e9]

/-- One `tick` on a 9xy0 opcode (skip when `Vx ≠ Vy`). -/
theorem tick_9xy0 (s : Chip8) (rng x y : Nat) (hx : x < 16) (hy : y < 16)
    (hpc : s.pc + 1 < 4096) (hb0 : s.ram s.pc = 0x90 + x) (hb1 : s.ram (s.pc + 1) = 16 * y) :
    Chip8.tick s rng = some
      (if s.v_reg x ≠ s.v_reg y then { s with pc := s.pc + 4 } else { s with pc := s.pc + 2 }) := by
  have hfetch := fetch_eq s hpc
  rw [hb0, hb1, Chip8.byteOr_eq _ _ (by omega)] at hfetch
  have e1 : (256 * (0x90 + x) + 16 * y) / 4096 % 16 = 9 := by omega
  have e2 : (256 * (0x90 + x) + 16 * y) / 256 % 16 = x := by omega
  have e3 : (256 * (0x90 + x) + 16 * y) / 16 % 16 = y := by omega
  have e4 : (256 * (0x90 + x) + 16 * y) % 16 = 0 := by omega
  have e9 : s.pc + 2 + 2 = s.pc + 4 := by omega
  simp only [Chip8.tick, hfetch, Option.bind_eq_bind, Option.some_bind]
  simp [Chip8.execute, Chip8.nib1_eq, Chip8.nib2_eq, Chip8.nib3_eq, Chip8.nib4_eq, e1, e2, e3, e4, e9]

/-- C7: for each of 3xnn, 4xnn, 5xy0, 9xy0, one `tick` advances PC by
exactly 4 when the skip condition holds and by exactly 2 otherwise, and
modifies nothing else (the result is the input state with only `pc`
replaced). -/
theorem C7_skip_advances (s : Chip8) (rng : Nat) (hpc : s.pc + 1 < 4096) :
    (∀ x nn, x < 16 → nn < 256 → s.ram s.pc = 0x30 + x → s.ram (s.pc + 1) = nn →
      Chip8.tick s rng = some
        (if s.v_reg x = nn then { s with pc := s.pc + 4 } else { s with pc := s.pc + 2 })) ∧
    (∀ x nn, x < 16 → nn < 256 → s.ram s.pc = 0x40 + x → s.ram (s.pc + 1) = nn →
      Chip8.tick s rng = some
        (if s.v_reg x ≠ nn then { s with pc := s.pc + 4 } else { s with pc := s.pc + 2 })) ∧
    (∀ x y, x < 16 → y < 16 → s.ram s.pc = 0x50 + x → s.ram (s.pc + 1) = 16 * y →
      Chip8.tick s rng = some
        (if s.v_reg x = s.v_reg y then { s with pc := s.pc + 4 } else { s with pc := s.pc + 2 })) ∧
    (∀ x y, x < 16 → y < 16 → s.ram s.pc = 0x90 + x → s.ram (s.pc + 1) = 16 * y →
      Chip8.tick s rng = some
        (if s.v_reg x ≠ s.v_reg y then { s with pc := s.pc + 4 } else { s with pc := s.pc + 2 })) :=
  ⟨fun x nn hx hnn hb0 hb1 => tick_3xnn s rng x nn hx hnn hpc hb0 hb1,
   fun x nn hx hnn hb0 hb1 => tick_4xnn s rng x nn hx hnn hpc hb0 hb1,
   fun x y hx hy hb0 hb1 => tick_5xy0 s rng x y hx hy hpc hb0 hb1,
   fun x y hx hy hb0 hb1 => tick_9xy0 s rng x y hx hy hpc hb0 hb1⟩

/-- RAM holds `3007` at 0x200 and `V0 = 7`: the 3xnn skip condition holds. -/
def skip3State : Chip8 :=
  { baseState with
    ram := fun a => if a = 0x200 then 0x30 else if a = 0x201 then 7 else 0,
    v_reg := fun i => if i = 0 then 7 else 0 }

/-- RAM holds `4007` at 0x200 and `V0 = 7`: the 4xnn skip condition fails. -/
def skip4State : Chip8 :=
  { baseState with
    ram := fun a => if a = 0x200 then 0x40 else if a = 0x201 then 7 else 0,
    v_reg := fun i => if i = 0 then 7 else 0 }

/-- RAM holds `5010` at 0x200, `V0 = V1 = 0`: the 5xy0 skip condition holds. -/
def skip5State : Chip8 :=
  { baseState with
    ram := fun a => if a = 0x200 then 0x50 else if a = 0x201 then 0x10 else 0 }

/-- RAM holds `9010` at 0x200, `V0 = V1 = 0`: the 9xy0 skip condition fails. -/
def skip9State : Chip8 :=
  { baseState with
    ram := fun a => if a = 0x200 then 0x90 else if a = 0x201 then 0x10 else 0 }

/-- C7 witness: each of the four families evaluated on a concrete state,
two with the condition true (PC 0x200 to 0x204) and two false (to 0x202). -/
theorem C7_skip_advances_witness :
    Chip8.tick skip3State 0 = some { skip3State with pc := 0x204 } ∧
    Chip8.tick skip4State 0 = some { skip4State with pc := 0x202 } ∧
    Chip8.tick skip5State 0 = some { skip5State with pc := 0x204 } ∧
    Chip8.tick skip9State 0 = some { skip9State with pc := 0x202 } := by
  refine ⟨?_, ?_, ?_, ?_⟩
  · have h := (C7_skip_advances skip3State 0 (by norm_num [skip3State, baseState])).1 0 7
      (by norm_num) (by norm_num) (by norm_num [skip3State, baseState])
      (by norm_num [skip3State, baseState])
    simpa [skip3State, baseState] using h
  · have h := (C7_skip_advances skip4State 0 (by norm_num [skip4State, baseState])).2.1 0 7
      (by norm_num) (by norm_num) (by norm_num [skip4State, baseState])
      (by norm_num [skip4State, baseState])
    simpa [skip4State, baseState] using h
  · have h := (C7_skip_advances skip5State 0 (by norm_num [skip5State, baseState])).2.2.1 0 1
      (by norm_num) (by norm_num) (by norm_num [skip5State, baseState])
      (by norm_num [skip5State, baseState])
    simpa [skip5State, baseState] using h
  · have h := (C7_skip_advances skip9State 0 (by norm_num [skip9State, baseState])).2.2.2 0 1
      (by norm_num) (by norm_num) (by norm_num [skip9State, baseState])
      (by norm_num [skip9State, baseState])
    simpa [skip9State, baseState] using h

/-! ### C3 -/

/-- `find?` over `range n` returns the least index satisfying `p`. -/
theorem find_range_eq_some (p : Nat → Bool) (n k : Nat) (hk : k < n) (hp : p k = true)
    (hmin : ∀ j, j < k → p j = false) : (List.range n).find? p = some k := by
  induction n with
  | zero => omega
  | succ n ih =>
    rw [List.range_succ, List.find?_append]
    rcases Nat.lt_or_ge k n with h | h
    · rw [ih h]
      rfl
    · have hkn : k = n := by omega
      subst hkn
      have hnone : (List.range k).find? p = none := by
        rw [List.find?_eq_none]
        intro j hj
        simp [hmin j (List.mem_range.mp hj)]
      rw [hnone]
      simp [List.find?, hp]

/-- One `tick` on Fx0A with no key pressed: the fetch advance (+2) is
undone by `pc -= 2`, so the result is exactly the input state. -/
theorem tick_fx0a_nokey (s : Chip8) (rng x : Nat) (hx : x < 16) (hpc : s.pc + 1 < 4096)
    (hb0 : s.ram s.pc = 0xF0 + x) (hb1 : s.ram (s.pc + 1) = 0x0A)
    (hkeys : ∀ i, i < 16 → s.keys i = false) :
    Chip8.tick s rng = some s := by
  have hfetch := fetch_eq s hpc
  rw [hb0, hb1, Chip8.byteOr_eq _ _ (by norm_num)] at hfetch
  have e1 : (256 * (0xF0 + x) + 0x0A) / 4096 % 16 = 15 := by omega
  have e2 : (256 * (0xF0 + x) + 0x0A) / 256 % 16 = x := by omega
  have e3 : (256 * (0xF0 + x) + 0x0A) / 16 % 16 = 0 := by omega
  have e4 : (256 * (0xF0 + x) + 0x0A) % 16 = 10 := by omega
  have hfk : Chip8.firstKey { s with pc := s.pc + 2 } = none := by
    rw [Chip8.firstKey, List.find?_eq_none]
    intro i hi
    simp [hkeys i (by simpa [KEYPAD_SIZE] using List.mem_range.mp hi)]
  have e9 : s.pc + 2 - 2 = s.pc := by omega
  simp only [Chip8.tick, hfetch, Option.bind_eq_bind, Option.some_bind]
  simp [Chip8.execute, Chip8.nib1_eq, Chip8.nib2_eq, Chip8.nib3_eq, Chip8.nib4_eq,
    e1, e2, e3, e4, hfk, e9]

/-- A state that `tick` maps to itself is a fixed point of any number of
ticks. -/
theorem ticks_fixed (s : Chip8) (rng : Nat) (h : Chip8.tick s rng = some s) :
    ∀ n, Chip8.ticks s rng n = some s := by
  intro n
  induction n with
  | zero => rfl
  | succ n ih =>
    simp only [Chip8.ticks, h, Option.bind_eq_bind, Option.some_bind]
    exact ih

/-- One `tick` on Fx0A with `k` the lowest-indexed pressed key: `Vx = k`
and PC advances normally by 2. -/
theorem tick_fx0a_key (s : Chip8) (rng x k : Nat) (hx : x < 16) (hpc : s.pc + 1 < 4096)
    (hb0 : s.ram s.pc = 0xF0 + x) (hb1 : s.ram (s.pc + 1) = 0x0A)
    (hk : k < 16) (hpk : s.keys k = true) (hmin : ∀ j, j < k → s.keys j = false) :
    Chip8.tick s rng = some
      { s with pc := s.pc + 2, v_reg := fun j => if j = x then k else s.v_reg j } := by
  have hfetch := fetch_eq s hpc
  rw [hb0, hb1, Chip8.byteOr_eq _ _ (by norm_num)] at hfetch
  have e1 : (256 * (0xF0 + x) + 0x0A) / 4096 % 16 = 15 := by omega
  have e2 : (256 * (0xF0 + x) + 0x0A) / 256 % 16 = x := by omega
  have e3 : (256 * (0xF0 + x) + 0x0A) / 16 % 16 = 0 := by omega
  have e4 : (256 * (0xF0 + x) + 0x0A) % 16 = 10 := by omega
  have hfk : Chip8.firstKey { s with pc := s.pc + 2 } = some k :=
    find_range_eq_some _ 16 k hk hpk hmin
  simp only [Chip8.tick, hfetch, Option.bind_eq_bind, Option.some_bind]
  simp [Chip8.execute, Chip8.nib1_eq, Chip8.nib2_eq, Chip8.nib3_eq, Chip8.nib4_eq,
    e1, e2, e3, e4, hfk]

/-- C3: Fx0A via `tick`.  With no key pressed the net effect leaves the
state (in particular PC) unchanged, and 100 consecutive ticks still leave
it unchanged; with at least one key pressed, Vx receives the
lowest-indexed pressed key and PC advances by 2. -/
theorem C3_fx0a_wait (s : Chip8) (rng x : Nat) (hx : x < 16) (hpc : s.pc + 1 < 4096)
    (hb0 : s.ram s.pc = 0xF0 + x) (hb1 : s.ram (s.pc + 1) = 0x0A) :
    ((∀ i, i < 16 → s.keys i = false) →
      Chip8.tick s rng = some s ∧ Chip8.ticks s rng 100 = some s) ∧
    (∀ k, k < 16 → s.keys k = true → (∀ j, j < k → s.keys j = false) →
      Chip8.tick s rng = some
        { s with pc := s.pc + 2, v_reg := fun j => if j = x then k else s.v_reg j }) := by
  constructor
  · intro hkeys
    have h := tick_fx0a_nokey s rng x hx hpc hb0 hb1 hkeys
    exact ⟨h, ticks_fixed s rng h 100⟩
  · intro k hk hpk hmin
    exact tick_fx0a_key s rng x k hx hpc hb0 hb1 hk hpk hmin

/-- RAM holds `F00A` at 0x200, no key pressed. -/
def waitState : Chip8 :=
  { baseState with ram := fun a => if a = 0x200 then 0xF0 else if a = 0x201 then 0x0A else 0 }

/-- Same, but key 3 is pressed (and no lower key). -/
def keyState : Chip8 :=
  { waitState with keys := fun i => i == 3 }

/-- C3 witness: 100 ticks stall on `waitState`; on `keyState` one tick
advances PC to 0x202 and stores 3 in V0. -/
theorem C3_fx0a_wait_witness :
    Chip8.ticks waitState 0 100 = some waitState ∧
    (∃ s', Chip8.tick keyState 0 = some s' ∧ s'.pc = 0x202 ∧ s'.v_reg 0 = 3) := by
  constructor
  · exact ((C3_fx0a_wait waitState 0 0 (by norm_num) (by norm_num [waitState, baseState])
      (by norm_num [waitState, baseState]) (by norm_num [waitState, baseState])).1
      (fun i _ => rfl)).2
  · have h := (C3_fx0a_wait keyState 0 0 (by norm_num) (by norm_num [keyState, waitState, baseState])
      (by norm_num [keyState, waitState, baseState]) (by norm_num [keyState, waitState, baseState])).2
      3 (by norm_num) (by norm_num [keyState, waitState, baseState])
      (fun j hj => by simp [keyState, waitState, baseState]; omega)
    exact ⟨_, h, by norm_num [keyState, waitState, baseState], by norm_num⟩

/-! ### C8 -/

/-- Fx33 step: three bounds-checked writes of the BCD digits at
`I`, `I+1`, `I+2` (later writes shadow earlier ones in the nest). -/
theorem exec_fx33 (s : Chip8) (rng x : Nat) (hx : x < 16) (hi : s.i_reg + 2 < 4096) :
    Chip8.execute s rng (0xF033 + 256 * x) = some
      { s with ram := fun a =>
          (if a = s.i_reg + 2 then Chip8.bcdOnes (s.v_reg x)
           else if a = s.i_reg + 1 then Chip8.bcdTens (s.v_reg x)
           else if a = s.i_reg then Chip8.bcdHundreds (s.v_reg x)
           else s.ram a) } := by
  have e1 : (0xF033 + 256 * x) / 4096 % 16 = 15 := by omega
  have e2 : (0xF033 + 256 * x) / 256 % 16 = x := by omega
  have e3 : (0xF033 + 256 * x) / 16 % 16 = 3 := by omega
  have e4 : (0xF033 + 256 * x) % 16 = 3 := by omega
  have m0 : s.i_reg < MEM_SIZE := by simp [MEM_SIZE]; omega
  have m1 : s.i_reg + 1 < MEM_SIZE := by simp [MEM_SIZE]; omega
  have m2 : s.i_reg + 2 < MEM_SIZE := by simp [MEM_SIZE]; omega
  simp [Chip8.execute, Chip8.nib1_eq, Chip8.nib2_eq, Chip8.nib3_eq, Chip8.nib4_eq,
    e1, e2, e3, e4, Chip8.writeRam, m0, m1, m2]

set_option maxRecDepth 100000 in
/-- The f32-modelled digit computations agree with exact integer decimal
digits on the whole `u8` domain: the rounded `f32` quotients never land on
the wrong side of an integer for `vx ≤ 255`. -/
theorem bcd_eq_digits :
    ∀ v, v < 256 → Chip8.bcdHundreds v = v / 100 ∧ Chip8.bcdTens v = v / 10 % 10 := by
  decide

/-- C8: Fx33 stores the hundreds digit of Vx at `memory[I]`, the tens digit
at `memory[I+1]` and the ones digit at `memory[I+2]`, for every Vx in
0–255, all other memory and registers untouched. -/
theorem C8_bcd (s : Chip8) (rng x : Nat) (hx : x < 16) (hvx : s.v_reg x < 256)
    (hi : s.i_reg + 2 < 4096) :
    ∃ s', Chip8.execute s rng (0xF033 + 256 * x) = some s' ∧
      s'.ram s.i_reg = s.v_reg x / 100 ∧
      s'.ram (s.i_reg + 1) = s.v_reg x / 10 % 10 ∧
      s'.ram (s.i_reg + 2) = s.v_reg x % 10 ∧
      (∀ a, a < s.i_reg ∨ s.i_reg + 2 < a → s'.ram a = s.ram a) ∧
      s'.pc = s.pc ∧ s'.v_reg = s.v_reg ∧ s'.i_reg = s.i_reg := by
  obtain ⟨h100, h10⟩ := bcd_eq_digits (s.v_reg x) hvx
  refine ⟨_, exec_fx33 s rng x hx hi, ?_, ?_, ?_, ?_, rfl, rfl, rfl⟩
  · have c2 : ¬ s.i_reg = s.i_reg + 2 := by omega
    have c1 : ¬ s.i_reg = s.i_reg + 1 := by omega
    simp [c1, c2, h100]
  · have c2 : ¬ s.i_reg + 1 = s.i_reg + 2 := by omega
    simp [c2, h10]
  · simp [Chip8.bcdOnes]
  · intro a ha
    have c2 : ¬ a = s.i_reg + 2 := by omega
    have c1 : ¬ a = s.i_reg + 1 := by omega
    have c0 : ¬ a = s.i_reg := by omega
    simp [c0, c1, c2]

/-- State with `V0 = 156`, `I = 0x300`. -/
def bcdState : Chip8 :=
  { baseState with v_reg := fun i => if i = 0 then 156 else 0, i_reg := 0x300 }

/-- C8 witness: Vx = 156 stores 1, 5, 6. -/
theorem C8_bcd_witness :
    ∃ s', Chip8.execute bcdState 0 0xF033 = some s' ∧
      s'.ram 0x300 = 1 ∧ s'.ram 0x301 = 5 ∧ s'.ram 0x302 = 6 := by
  have h := C8_bcd bcdState 0 0 (by norm_num) (by norm_num [bcdState, baseState])
    (by norm_num [bcdState, baseState])
  obtain ⟨s', he, h0, h1, h2, -, -, -, -⟩ := h
  norm_num [bcdState, baseState] at he h0 h1 h2
  exact ⟨s', he, h0, h1, h2⟩

/-! ### C1 and C9: the Dxyn draw -/

/-- Screen index a sprite bit at column `xl`, row `yl` lands on. -/
def pixIdx (xc yc xl yl : Nat) : Nat :=
  (xc + xl) % SCREEN_WIDTH + SCREEN_WIDTH * ((yc + yl) % SCREEN_HEIGHT)

/-- Within one sprite row, distinct columns land on distinct pixels. -/
theorem pixIdx_inj_col (xc yc yl c1 c2 : Nat) (h1 : c1 < 8) (h2 : c2 < 8)
    (he : pixIdx xc yc c1 yl = pixIdx xc yc c2 yl) : c1 = c2 := by
  simp only [pixIdx, SCREEN_WIDTH, SCREEN_HEIGHT] at he
  omega

/-- Sprite bits from distinct rows (both below 16, the maximum height)
land on distinct pixels. -/
theorem pixIdx_ne_row (xc yc c1 r1 c2 r2 : Nat) (h1c : c1 < 8) (h2c : c2 < 8)
    (h1r : r1 < 16) (h2r : r2 < 16) (hne : r1 ≠ r2) :
    pixIdx xc yc c1 r1 ≠ pixIdx xc yc c2 r2 := by
  simp only [pixIdx, SCREEN_WIDTH, SCREEN_HEIGHT]
  omega

/-- Splitting a bounded existential at its last index. -/
theorem exists_lt_succ_split {P : Nat → Prop} (m : Nat) :
    (∃ c, c < m + 1 ∧ P c) ↔ (∃ c, c < m ∧ P c) ∨ P m := by
  constructor
  · rintro ⟨c, hc, hp⟩
    rcases Nat.lt_or_ge c m with h | h
    · exact Or.inl ⟨c, h, hp⟩
    · have : c = m := by omega
      subst this
      exact Or.inr hp
  · rintro (⟨c, hc, hp⟩ | hp)
    · exact ⟨c, by omega, hp⟩
    · exact ⟨m, by omega, hp⟩

/-- XOR of two decided propositions that cannot both hold is their
disjunction. -/
theorem xor_decide_of_exclusive {A B : Prop} [Decidable A] [Decidable B] (h : ¬ (A ∧ B)) :
    xor (decide A) (decide B) = decide (A ∨ B) := by
  by_cases ha : A
  · by_cases hb : B
    · exact absurd ⟨ha, hb⟩ h
    · simp [ha, hb]
  · by_cases hb : B
    · simp [ha, hb]
    · simp [ha, hb]

/-- Characterization of the Dxyn inner column loop, by induction over the
first `m` columns: each set bit toggles its pixel (columns within a row
never collide), `flipped` accumulates the pre-draw values of the hit
pixels, and no other field changes. -/
theorem drawPixFold_spec (xc yc yl px : Nat) (s0 : Chip8) (fl0 : Bool) (m : Nat) (hm : m ≤ 8) :
    (∀ idx, ((List.range m).foldl (Chip8.drawPix xc yc yl px) (s0, fl0)).1.screen idx =
      xor (s0.screen idx)
        (decide (∃ c, c < m ∧ px &&& (0x80 >>> c) ≠ 0 ∧ idx = pixIdx xc yc c yl))) ∧
    ((List.range m).foldl (Chip8.drawPix xc yc yl px) (s0, fl0)).2 =
      (fl0 || decide (∃ c, c < m ∧ px &&& (0x80 >>> c) ≠ 0 ∧
        s0.screen (pixIdx xc yc c yl) = true)) ∧
    ((List.range m).foldl (Chip8.drawPix xc yc yl px) (s0, fl0)).1.pc = s0.pc ∧
    ((List.range m).foldl (Chip8.drawPix xc yc yl px) (s0, fl0)).1.ram = s0.ram ∧
    ((List.range m).foldl (Chip8.drawPix xc yc yl px) (s0, fl0)).1.v_reg = s0.v_reg ∧
    ((List.range m).foldl (Chip8.drawPix xc yc yl px) (s0, fl0)).1.i_reg = s0.i_reg ∧
    ((List.range m).foldl (Chip8.drawPix xc yc yl px) (s0, fl0)).1.sp = s0.sp ∧
    ((List.range m).foldl (Chip8.drawPix xc yc yl px) (s0, fl0)).1.stack = s0.stack ∧
    ((List.range m).foldl (Chip8.drawPix xc yc yl px) (s0, fl0)).1.dt = s0.dt ∧
    ((List.range m).foldl (Chip8.drawPix xc yc yl px) (s0, fl0)).1.st = s0.st ∧
    ((List.range m).foldl (Chip8.drawPix xc yc yl px) (s0, fl0)).1.keys = s0.keys := by
  induction m with
  | zero =>
    refine ⟨fun idx => by simp, by simp, rfl, rfl, rfl, rfl, rfl, rfl, rfl, rfl, rfl⟩
  | succ m ih =>
    obtain ⟨ihscr, ihfl, ihpc, ihram, ihv, ihi, ihsp, ihstk, ihdt, ihst, ihkeys⟩ :=
      ih (by omega)
    rw [List.range_succ] at *
    simp only [List.foldl_append, List.foldl_cons, List.foldl_nil] at *
    set p := (List.range m).foldl (Chip8.drawPix xc yc yl px) (s0, fl0) with hp
    by_cases hbit : px &&& (0x80 >>> m) ≠ 0
    · have hstep : Chip8.drawPix xc yc yl px p m =
        ({ p.1 with screen := fun j =>
            if j = pixIdx xc yc m yl then xor (p.1.screen (pixIdx xc yc m yl)) true
            else p.1.screen j }, p.2 || p.1.screen (pixIdx xc yc m yl)) := by
        simp [Chip8.drawPix, hbit, pixIdx]
      rw [hstep]
      have hnohit : ¬ (∃ c, c < m ∧ px &&& (0x80 >>> c) ≠ 0 ∧
          pixIdx xc yc m yl = pixIdx xc yc c yl) := by
        rintro ⟨c, hc, -, he⟩
        have := pixIdx_inj_col xc yc yl m c (by omega) (by omega) he
        omega
      refine ⟨?_, ?_, ihpc, ihram, ihv, ihi, ihsp, ihstk, ihdt, ihst, ihkeys⟩
      · intro idx
        by_cases hidx : idx = pixIdx xc yc m yl
        · subst hidx
          simp only [if_pos rfl]
          rw [ihscr]
          have h1 : decide (∃ c, c < m ∧ px &&& (0x80 >>> c) ≠ 0 ∧
              pixIdx xc yc m yl = pixIdx xc yc c yl) = false := by
            simpa using hnohit
          rw [h1]
          have h2 : decide (∃ c, c < m + 1 ∧ px &&& (0x80 >>> c) ≠ 0 ∧
              pixIdx xc yc m yl = pixIdx xc yc c yl) = true := by
            simp only [decide_eq_true_eq]
            exact ⟨m, by omega, hbit, rfl⟩
          rw [h2]
          simp [Bool.xor_assoc]
        · simp only [if_neg hidx]
          rw [ihscr]
          congr 1
          rw [decide_eq_decide]
          rw [exists_lt_succ_split]
          constructor
          · exact Or.inl
          · rintro (h | ⟨-, he⟩)
            · exact h
            · exact absurd he hidx
      · rw [ihfl, ihscr]
        have h1 : decide (∃ c, c < m ∧ px &&& (0x80 >>> c) ≠ 0 ∧
            pixIdx xc yc m yl = pixIdx xc yc c yl) = false := by
          simpa using hnohit
        rw [h1]
        have h2 : (∃ c, c < m + 1 ∧ px &&& (0x80 >>> c) ≠ 0 ∧
            s0.screen (pixIdx xc yc c yl) = true) ↔
            ((∃ c, c < m ∧ px &&& (0x80 >>> c) ≠ 0 ∧ s0.screen (pixIdx xc yc c yl) = true) ∨
             (px &&& (0x80 >>> m) ≠ 0 ∧ s0.screen (pixIdx xc yc m yl) = true)) := by
          rw [exists_lt_succ_split]
        by_cases hs : s0.screen (pixIdx xc yc m yl) = true
        · simp [hs, h2, hbit, Bool.or_assoc]
        · simp only [Bool.xor_false]
          have hs' : s0.screen (pixIdx xc yc m yl) = false := by
            simpa using hs
          simp [hs', h2, hbit, Bool.or_assoc]
    · have hstep : Chip8.drawPix xc yc yl px p m = p := by
        simp [Chip8.drawPix, hbit]
      rw [hstep]
      refine ⟨?_, ?_, ihpc, ihram, ihv, ihi, ihsp, ihstk, ihdt, ihst, ihkeys⟩
      · intro idx
        rw [ihscr]
        congr 1
        rw [decide_eq_decide, exists_lt_succ_split]
        constructor
        · exact Or.inl
        · rintro (h | ⟨hb, -⟩)
          · exact h
          · exact absurd hb hbit
      · rw [ihfl]
        congr 1
        rw [decide_eq_decide, exists_lt_succ_split]
        constructor
        · exact Or.inl
        · rintro (h | ⟨hb, -⟩)
          · exact h
          · exact absurd hb hbit

/-- `decide` distributes over disjunction. -/
theorem decide_or_eq {p q : Prop} [Decidable p] [Decidable q] :
    decide (p ∨ q) = (decide p || decide q) := by
  by_cases hp : p <;> by_cases hq : q <;> simp [hp, hq]

/-- Characterization of the whole Dxyn double loop: the final screen is the
initial screen XOR the sprite-hit indicator, and the collision flag says
some set bit landed on an initially lit pixel.  Rows of one sprite never
collide (heights are at most 15 < 32), so each pixel is toggled at most
once. -/
theorem drawSprite_spec (s : Chip8) (xc yc : Nat) :
    ∀ n, n ≤ 16 → s.i_reg + n ≤ 4096 →
    ∃ s1 fl, Chip8.drawSprite s xc yc n = some (s1, fl) ∧
      (∀ idx, s1.screen idx = xor (s.screen idx)
        (decide (∃ r, r < n ∧ ∃ c, c < 8 ∧
          s.ram (s.i_reg + r) &&& (0x80 >>> c) ≠ 0 ∧ idx = pixIdx xc yc c r))) ∧
      (fl = decide (∃ r, r < n ∧ ∃ c, c < 8 ∧
        s.ram (s.i_reg + r) &&& (0x80 >>> c) ≠ 0 ∧ s.screen (pixIdx xc yc c r) = true)) ∧
      s1.pc = s.pc ∧ s1.ram = s.ram ∧ s1.v_reg = s.v_reg ∧ s1.i_reg = s.i_reg ∧
      s1.sp = s.sp ∧ s1.stack = s.stack ∧ s1.dt = s.dt ∧ s1.st = s.st ∧ s1.keys = s.keys := by
  intro n
  induction n with
  | zero =>
    intro hn hb
    exact ⟨s, false, rfl, fun idx => by simp, by simp, rfl, rfl, rfl, rfl, rfl, rfl, rfl,
      rfl, rfl⟩
  | succ n ih =>
    intro hn hb
    obtain ⟨s1, fl, hds, ihscr, ihfl, ihpc, ihram, ihv, ihi, ihsp, ihstk, ihdt, ihst, ihkeys⟩ :=
      ih (by omega) (by omega)
    have hread : Chip8.readRam s1 (s1.i_reg + n) = some (s.ram (s.i_reg + n)) := by
      rw [Chip8.readRam, if_pos (by rw [ihi]; simp [MEM_SIZE]; omega), ihram, ihi]
    obtain ⟨pscr, pfl, ppc, pram, pv, pi, psp, pstk, pdt, pst, pkeys⟩ :=
      drawPixFold_spec xc yc n (s.ram (s.i_reg + n)) s1 fl 8 (by omega)
    have hrow : Chip8.drawRow xc yc (s1, fl) n =
        some ((List.range 8).foldl (Chip8.drawPix xc yc n (s.ram (s.i_reg + n))) (s1, fl)) := by
      rw [Chip8.drawRow]
      simp only [hread, Option.bind_eq_bind, Option.some_bind]
    have hsplit : Chip8.drawSprite s xc yc (n + 1) =
        Chip8.drawSprite s xc yc n >>= fun p => Chip8.drawRow xc yc p n := by
      rw [Chip8.drawSprite, Chip8.drawSprite, List.range_succ, List.foldlM_append]
      simp [List.foldlM]
    set q := (List.range 8).foldl (Chip8.drawPix xc yc n (s.ram (s.i_reg + n))) (s1, fl) with hq
    refine ⟨q.1, q.2, ?_, ?_, ?_, by rw [ppc, ihpc], by rw [pram, ihram],
      by rw [pv, ihv], by rw [pi, ihi], by rw [psp, ihsp], by rw [pstk, ihstk],
      by rw [pdt, ihdt], by rw [pst, ihst], by rw [pkeys, ihkeys]⟩
    · rw [hsplit, hds]
      simp only [Option.bind_eq_bind, Option.some_bind]
      rw [hrow]
    · intro idx
      rw [pscr idx, ihscr idx, Bool.xor_assoc]
      congr 1
      have hexcl : ¬ ((∃ r, r < n ∧ ∃ c, c < 8 ∧
            s.ram (s.i_reg + r) &&& (0x80 >>> c) ≠ 0 ∧ idx = pixIdx xc yc c r) ∧
          (∃ c, c < 8 ∧ s.ram (s.i_reg + n) &&& (0x80 >>> c) ≠ 0 ∧
            idx = pixIdx xc yc c n)) := by
        rintro ⟨⟨r, hr, c, hc, -, he1⟩, ⟨c', hc', -, he2⟩⟩
        exact pixIdx_ne_row xc yc c r c' n hc hc' (by omega) (by omega) (by omega)
          (he1.symm.trans he2)
      rw [xor_decide_of_exclusive hexcl, decide_eq_decide]
      rw [exists_lt_succ_split (P := fun r => ∃ c, c < 8 ∧
        s.ram (s.i_reg + r) &&& (0x80 >>> c) ≠ 0 ∧ idx = pixIdx xc yc c r)]
    · rw [pfl, ihfl]
      have hscr_eq : ∀ c, c < 8 →
          s1.screen (pixIdx xc yc c n) = s.screen (pixIdx xc yc c n) := by
        intro c hc
        rw [ihscr]
        have : decide (∃ r, r < n ∧ ∃ c', c' < 8 ∧
            s.ram (s.i_reg + r) &&& (0x80 >>> c') ≠ 0 ∧
            pixIdx xc yc c n = pixIdx xc yc c' r) = false := by
          simp only [decide_eq_false_iff_not]
          rintro ⟨r, hr, c', hc', -, he⟩
          exact pixIdx_ne_row xc yc c' r c n hc' hc (by omega) (by omega) (by omega)
            (he.symm)
        rw [this]
        simp
      have h2 : (∃ c, c < 8 ∧ s.ram (s.i_reg + n) &&& (0x80 >>> c) ≠ 0 ∧
          s1.screen (pixIdx xc yc c n) = true) ↔
          (∃ c, c < 8 ∧ s.ram (s.i_reg + n) &&& (0x80 >>> c) ≠ 0 ∧
          s.screen (pixIdx xc yc c n) = true) := by
        apply exists_congr
        intro c
        constructor
        · rintro ⟨hc, hb2, hs2⟩
          exact ⟨hc, hb2, (hscr_eq c hc).symm.trans hs2⟩
        · rintro ⟨hc, hb2, hs2⟩
          exact ⟨hc, hb2, (hscr_eq c hc).trans hs2⟩
      rw [decide_eq_decide.mpr h2, ← decide_or_eq, decide_eq_decide]
      rw [exists_lt_succ_split (P := fun r => ∃ c, c < 8 ∧
        s.ram (s.i_reg + r) &&& (0x80 >>> c) ≠ 0 ∧ s.screen (pixIdx xc yc c r) = true)]

/-- Dxyn at the `execute` level: the draw result plus the final
`VF = collision` write. -/
theorem exec_dxyn_spec (s : Chip8) (rng x y n : Nat) (hx : x < 16) (hy : y < 16) (hn : n < 16)
    (hb : s.i_reg + n ≤ 4096) :
    ∃ s', Chip8.execute s rng (0xD000 + 256 * x + 16 * y + n) = some s' ∧
      (∀ idx, s'.screen idx = xor (s.screen idx) (decide (∃ r, r < n ∧ ∃ c, c < 8 ∧
          s.ram (s.i_reg + r) &&& (0x80 >>> c) ≠ 0 ∧
          idx = pixIdx (s.v_reg x) (s.v_reg y) c r))) ∧
      (s'.v_reg 0xF = if (∃ r, r < n ∧ ∃ c, c < 8 ∧
          s.ram (s.i_reg + r) &&& (0x80 >>> c) ≠ 0 ∧
          s.screen (pixIdx (s.v_reg x) (s.v_reg y) c r) = true) then 1 else 0) ∧
      (∀ i, i ≠ 0xF → s'.v_reg i = s.v_reg i) ∧
      s'.pc = s.pc ∧ s'.ram = s.ram ∧ s'.i_reg = s.i_reg ∧ s'.sp = s.sp ∧
      s'.stack = s.stack ∧ s'.dt = s.dt ∧ s'.st = s.st ∧ s'.keys = s.keys := by
  obtain ⟨s1, fl, hds, hscr, hfl, hpc, hram, hv, hi, hsp, hstk, hdt, hst, hkeys⟩ :=
    drawSprite_spec s (s.v_reg x) (s.v_reg y) n (by omega) hb
  have e1 : (0xD000 + 256 * x + 16 * y + n) / 4096 % 16 = 13 := by omega
  have e2 : (0xD000 + 256 * x + 16 * y + n) / 256 % 16 = x := by omega
  have e3 : (0xD000 + 256 * x + 16 * y + n) / 16 % 16 = y := by omega
  have e4 : (0xD000 + 256 * x + 16 * y + n) % 16 = n := by omega
  have hexec : Chip8.execute s rng (0xD000 + 256 * x + 16 * y + n) = some
      { s1 with v_reg := fun i => if i = 15 then (if fl then 1 else 0) else s1.v_reg i } := by
    simp [Chip8.execute, Chip8.nib1_eq, Chip8.nib2_eq, Chip8.nib3_eq, Chip8.nib4_eq,
      e1, e2, e3, e4, hds]
  refine ⟨_, hexec, ?_, ?_, ?_, hpc, hram, hi, hsp, hstk, hdt, hst, hkeys⟩
  · intro idx
    simpa using hscr idx
  · subst hfl
    by_cases hc : (∃ r, r < n ∧ ∃ c, c < 8 ∧
        s.ram (s.i_reg + r) &&& (0x80 >>> c) ≠ 0 ∧
        s.screen (pixIdx (s.v_reg x) (s.v_reg y) c r) = true)
    · simp [hc]
    · simp [hc]
  · intro i hif
    simp [hif, hv]

/-- C1: executing Dxyn reads the `n` row bytes at `I` and XORs with `true`
exactly the pixels `((Vx + col) mod 64, (Vy + row) mod 32)` of set sprite
bits (the anchor is not wrapped first; only the per-pixel coordinate is
reduced, which `pixIdx` states verbatim); afterwards `VF = 1` iff some
pixel went from on to off, i.e. some set bit hit an initially lit pixel,
else `VF = 0`.  Needs the row reads in bounds (`I + n ≤ 4096`), otherwise
the Rust indexing panics. -/
theorem C1_dxyn_draw (s : Chip8) (rng x y n : Nat) (hx : x < 16) (hy : y < 16) (hn : n < 16)
    (hb : s.i_reg + n ≤ 4096) :
    ∃ s', Chip8.execute s rng (0xD000 + 256 * x + 16 * y + n) = some s' ∧
      (∀ idx, s'.screen idx = xor (s.screen idx) (decide (∃ r, r < n ∧ ∃ c, c < 8 ∧
          s.ram (s.i_reg + r) &&& (0x80 >>> c) ≠ 0 ∧
          idx = pixIdx (s.v_reg x) (s.v_reg y) c r))) ∧
      ((∃ r, r < n ∧ ∃ c, c < 8 ∧ s.ram (s.i_reg + r) &&& (0x80 >>> c) ≠ 0 ∧
          s.screen (pixIdx (s.v_reg x) (s.v_reg y) c r) = true) → s'.v_reg 0xF = 1) ∧
      (¬ (∃ r, r < n ∧ ∃ c, c < 8 ∧ s.ram (s.i_reg + r) &&& (0x80 >>> c) ≠ 0 ∧
          s.screen (pixIdx (s.v_reg x) (s.v_reg y) c r) = true) → s'.v_reg 0xF = 0) ∧
      (∀ i, i ≠ 0xF → s'.v_reg i = s.v_reg i) ∧
      s'.pc = s.pc ∧ s'.ram = s.ram ∧ s'.i_reg = s.i_reg := by
  obtain ⟨s', he, hscr, hvf, hpres, hpc, hram, hi, -, -, -, -, -⟩ :=
    exec_dxyn_spec s rng x y n hx hy hn hb
  refine ⟨s', he, hscr, ?_, ?_, hpres, hpc, hram, hi⟩
  · intro hc
    rw [hvf, if_pos hc]
  · intro hc
    rw [hvf, if_neg hc]

/-- C9: executing the same Dxyn twice with Vx, Vy (and automatically I and
the sprite bytes) unchanged between the draws restores every pixel, and the
second draw reports `VF = 1` provided the first draw set (turned on) at
least one pixel. -/
theorem C9_double_draw (s : Chip8) (rng rng' x y n : Nat) (hx : x < 16) (hy : y < 16)
    (hn : n < 16) (hb : s.i_reg + n ≤ 4096) (s1 : Chip8)
    (h1 : Chip8.execute s rng (0xD000 + 256 * x + 16 * y + n) = some s1)
    (hvx : s1.v_reg x = s.v_reg x) (hvy : s1.v_reg y = s.v_reg y) :
    ∃ s2, Chip8.execute s1 rng' (0xD000 + 256 * x + 16 * y + n) = some s2 ∧
      (∀ idx, s2.screen idx = s.screen idx) ∧
      ((∃ r, r < n ∧ ∃ c, c < 8 ∧ s.ram (s.i_reg + r) &&& (0x80 >>> c) ≠ 0 ∧
          s.screen (pixIdx (s.v_reg x) (s.v_reg y) c r) = false) → s2.v_reg 0xF = 1) := by
  obtain ⟨t1, he1, hscr1, hvf1, hpres1, hpc1, hram1, hi1, -, -, -, -, -⟩ :=
    exec_dxyn_spec s rng x y n hx hy hn hb
  have hs1 : s1 = t1 := by
    rw [h1] at he1
    exact Option.some.injEq _ _ ▸ he1
  subst hs1
  obtain ⟨s2, he2, hscr2, hvf2, hpres2, hpc2, hram2, hi2, -, -, -, -, -⟩ :=
    exec_dxyn_spec s1 rng' x y n hx hy hn (by rw [hi1]; exact hb)
  rw [hram1, hi1, hvx, hvy] at hscr2 hvf2
  refine ⟨s2, he2, ?_, ?_⟩
  · intro idx
    rw [hscr2 idx, hscr1 idx, Bool.xor_assoc, Bool.xor_self, Bool.xor_false]
  · intro hset
    obtain ⟨r, hr, c, hc, hbit, hoff⟩ := hset
    rw [hvf2, if_pos]
    refine ⟨r, hr, c, hc, hbit, ?_⟩
    rw [hscr1]
    rw [hoff]
    have : decide (∃ r', r' < n ∧ ∃ c', c' < 8 ∧
        s.ram (s.i_reg + r') &&& (0x80 >>> c') ≠ 0 ∧
        pixIdx (s.v_reg x) (s.v_reg y) c r = pixIdx (s.v_reg x) (s.v_reg y) c' r') = true := by
      simp only [decide_eq_true_eq]
      exact ⟨r, hr, c, hc, hbit, rfl⟩
    rw [this]
    rfl

/-- `V0 = 63`, `V1 = 0`, `I = 0x300`, sprite byte `0xC0` (two set bits):
drawn at x = 63, the second column wraps to x = 0. -/
def drawState : Chip8 :=
  { baseState with
    v_reg := fun i => (if i = 0 then 63 else 0),
    i_reg := 0x300,
    ram := fun a => (if a = 0x300 then 0xC0 else 0) }

/-- C1 witness: the `0xC0` sprite drawn at x = 63 lights pixels 63 and 0
(wraparound) and leaves pixel 1 dark, with `VF = 0` on a blank screen. -/
theorem C1_dxyn_draw_witness :
    ∃ s', Chip8.execute drawState 0 0xD011 = some s' ∧
      s'.screen 63 = true ∧ s'.screen 0 = true ∧ s'.screen 1 = false ∧ s'.v_reg 0xF = 0 := by
  have h := C1_dxyn_draw drawState 0 0 1 1 (by norm_num) (by norm_num) (by norm_num)
    (by norm_num [drawState, baseState])
  obtain ⟨s', he, hscr, -, hvf0, -, -, -, -⟩ := h
  refine ⟨s', by rw [show (0xD011 : Nat) = 0xD000 + 256 * 0 + 16 * 1 + 1 by norm_num]; exact he,
    ?_, ?_, ?_, ?_⟩
  · rw [hscr 63]
    have h63 : drawState.screen 63 = false := rfl
    rw [h63]
    have : decide (∃ r, r < 1 ∧ ∃ c, c < 8 ∧
        drawState.ram (drawState.i_reg + r) &&& (0x80 >>> c) ≠ 0 ∧
        63 = pixIdx (drawState.v_reg 0) (drawState.v_reg 1) c r) = true := by decide
    rw [this]
    rfl
  · rw [hscr 0]
    have h0 : drawState.screen 0 = false := rfl
    rw [h0]
    have : decide (∃ r, r < 1 ∧ ∃ c, c < 8 ∧
        drawState.ram (drawState.i_reg + r) &&& (0x80 >>> c) ≠ 0 ∧
        0 = pixIdx (drawState.v_reg 0) (drawState.v_reg 1) c r) = true := by decide
    rw [this]
    rfl
  · rw [hscr 1]
    have h1 : drawState.screen 1 = false := rfl
    rw [h1]
    have : decide (∃ r, r < 1 ∧ ∃ c, c < 8 ∧
        drawState.ram (drawState.i_reg + r) &&& (0x80 >>> c) ≠ 0 ∧
        1 = pixIdx (drawState.v_reg 0) (drawState.v_reg 1) c r) = false := by decide
    rw [this]
    rfl
  · exact hvf0 (by decide)

/-- C9 witness: drawing the same sprite twice restores pixels 63 and 0 to
off and the second draw reports a collision. -/
theorem C9_double_draw_witness :
    ∃ s1 s2, Chip8.execute drawState 0 0xD011 = some s1 ∧
      Chip8.execute s1 0 0xD011 = some s2 ∧
      s2.screen 63 = false ∧ s2.screen 0 = false ∧ s2.v_reg 0xF = 1 := by
  obtain ⟨s1, he1, -, -, hpres1, -, -, -, -, -, -, -, -⟩ :=
    exec_dxyn_spec drawState 0 0 1 1 (by norm_num) (by norm_num) (by norm_num)
      (by norm_num [drawState, baseState])
  obtain ⟨s2, he2, hsame, hvf⟩ :=
    C9_double_draw drawState 0 0 0 1 1 (by norm_num) (by norm_num) (by norm_num)
      (by norm_num [drawState, baseState]) s1 he1
      (hpres1 0 (by norm_num)) (hpres1 1 (by norm_num))
  refine ⟨s1, s2,
    by rw [show (0xD011 : Nat) = 0xD000 + 256 * 0 + 16 * 1 + 1 by norm_num]; exact he1,
    by rw [show (0xD011 : Nat) = 0xD000 + 256 * 0 + 16 * 1 + 1 by norm_num]; exact he2,
    ?_, ?_, ?_⟩
  · rw [hsame 63]
    rfl
  · rw [hsame 0]
    rfl
  · exact hvf (by decide)

/-- C5 witness: a 3585-byte payload is rejected; `[1, 2]` lands at
`0x200`, `0x201` with the rest of the state untouched. -/
theorem C5_load_bounds_witness :
    Chip8.load baseState (List.replicate 3585 0) = none ∧
    (∃ s', Chip8.load baseState [1, 2] = some s' ∧ s'.ram 0x200 = 1 ∧ s'.ram 0x201 = 2 ∧
      s'.ram 0x1FF = baseState.ram 0x1FF ∧ s'.pc = baseState.pc) := by
  constructor
  · exact (C5_load_bounds baseState (List.replicate 3585 0)).1
      (by rw [List.length_replicate]; norm_num [MEM_SIZE, START_ADDR])
  · obtain ⟨s', he, hin, hout, hpc, -, -, -, -, -, -, -, -⟩ :=
      (C5_load_bounds baseState [1, 2]).2 (by simp [MEM_SIZE, START_ADDR])
    refine ⟨s', he, ?_, ?_, ?_, hpc⟩
    · have h0 := hin 0 (by norm_num)
      simpa [START_ADDR] using h0
    · have h1 := hin 1 (by norm_num)
      simpa [START_ADDR] using h1
    · exact hout 0x1FF (by left; norm_num [START_ADDR])
